import Mathlib

/-!
Shallow embedding of the sampling/caching core of the `web-monitor` host
metrics collector (`src/app/main.py`), together with theorems checking the
specification's claims about it.

Conventions of the embedding:
* Python `time.time()` values and all real-valued quantities are `ℚ`;
  quantities that are Python `int`s (energy register values, byte counts)
  are `ℤ` or `ℕ`.
* Python dicts keyed by strings are modelled either as association lists
  (when the code iterates over the items, preserving insertion order) or as
  functions `String → Option β` (when the code only looks keys up and
  assigns them).
* Fallible OS reads (`open`/`int(...)`/psutil calls wrapped in
  `try ... except`) are modelled as `Option` inputs: `none` means the read
  raised or the file was missing.
-/

namespace WebMonitor

/-- Python's `round`-to-nearest with ties to even (banker's rounding),
rounding a rational to an integer. -/
def roundHalfEven (q : ℚ) : ℤ :=
  if q - ⌊q⌋ < 1/2 then ⌊q⌋
  else if 1/2 < q - ⌊q⌋ then ⌊q⌋ + 1
  else if ⌊q⌋ % 2 = 0 then ⌊q⌋ else ⌊q⌋ + 1

/-- Python's `round(q, n)` for `n` decimal digits. -/
def pyRound (q : ℚ) (n : ℕ) : ℚ :=
  (roundHalfEven (q * 10 ^ n) : ℚ) / 10 ^ n

/-! ## HistoryRingBuffer

`collections.deque(maxlen=60)` as used for `_cpu_temp_history` and
`_memory_history` (src/app/main.py lines 38-40): appending to a full deque
silently drops the oldest element. -/

/-- `deque.append` for a deque with `maxlen = cap`: if the buffer is full the
oldest (front) element is dropped before the new element is appended at the
back. -/
def dequePush (cap : ℕ) (buf : List α) (x : α) : List α :=
  if cap ≤ buf.length then buf.drop 1 ++ [x] else buf ++ [x]

/-- Pushing a whole sequence of samples, oldest first. -/
def dequePushAll (cap : ℕ) (buf : List α) (xs : List α) : List α :=
  xs.foldl (dequePush cap) buf

theorem dequePush_length_le (cap : ℕ) (hcap : 0 < cap) (buf : List α) (x : α)
    (h : buf.length ≤ cap) : (dequePush cap buf x).length ≤ cap := by
  unfold dequePush
  split
  · rename_i hfull
    have hlen : buf.length = cap := le_antisymm h hfull
    simp [List.length_drop, hlen]
    omega
  · rename_i hnot
    simp
    omega

/-- Key lemma: starting from a buffer that is within capacity, pushing `xs`
leaves exactly the last `cap` elements of `buf ++ xs`, in order. -/
theorem dequePushAll_eq_drop (cap : ℕ) (hcap : 0 < cap) (xs : List α) :
    ∀ (buf : List α), buf.length ≤ cap →
      dequePushAll cap buf xs = (buf ++ xs).drop ((buf ++ xs).length - cap) := by
  induction xs with
  | nil =>
    intro buf h
    have h0 : buf.length - cap = 0 := by omega
    simp [dequePushAll, h0]
  | cons x xs ih =>
    intro buf h
    have hstep : dequePushAll cap buf (x :: xs) = dequePushAll cap (dequePush cap buf x) xs := by
      simp [dequePushAll, List.foldl_cons]
    rw [hstep, ih _ (dequePush_length_le cap hcap buf x h)]
    unfold dequePush
    split
    · rename_i hfull
      have hlen : buf.length = cap := le_antisymm h hfull
      have hb : buf ≠ [] := by
        intro hnil; rw [hnil] at hlen; simp at hlen; omega
      have hdrop : (buf.drop 1 ++ [x]) ++ xs = ((buf ++ x :: xs).drop 1) := by
        cases buf with
        | nil => exact absurd rfl hb
        | cons b bs => simp
      rw [hdrop]
      rw [List.drop_drop]
      congr 1
      simp
      omega
    · rename_i hnot
      have : (buf ++ [x]) ++ xs = buf ++ x :: xs := by simp
      rw [this]

/-! ## RaplReader (src/app/main.py lines 42-126)

An energy domain as discovered by `_init_domains`: a powercap directory with
a display name, the path of its `energy_uj` register file and the maximum
representable register value (`max_energy_range_uj`). -/

structure Domain where
  path : String
  name : String
  energy_file : String
  max_range : ℤ
deriving DecidableEq, Repr

/-- Mutable state of a `RaplReader`: the per-path last reading
`(timestamp, energy_uj)` and the periodic-cleanup call counter. -/
structure RaplState where
  last_readings : String → Option (ℚ × ℤ)
  cleanup_counter : ℕ

/-- Python dict assignment `d[k] = v` on an association list: replaces the
value in place when the key is present (dicts keep insertion order),
otherwise appends the new pair at the end. -/
def dictSet (d : List (String × α)) (k : String) (v : α) : List (String × α) :=
  if d.any (fun kv => kv.1 = k) then
    d.map (fun kv => if kv.1 = k then (k, v) else kv)
  else
    d ++ [(k, v)]

/-- The pruning pass of `get_power_stats` (lines 96-101): entries whose
timestamp is more than 60 seconds old are deleted. -/
def prune_last_readings (lr : String → Option (ℚ × ℤ)) (now : ℚ) :
    String → Option (ℚ × ℤ) := fun p =>
  match lr p with
  | some (t, e) => if now - t > 60 then none else some (t, e)
  | none => none

/-- The body of the per-domain loop of `get_power_stats` (lines 103-124).
`readEnergy` models reading `domain["energy_file"]`: `none` when the file is
missing or the read raises (the `except: continue` path).  The accumulator
carries the `stats` dict built so far and the `last_readings` dict. -/
def process_domain (now : ℚ) (readEnergy : String → Option ℤ)
    (acc : List (String × ℚ) × (String → Option (ℚ × ℤ))) (domain : Domain) :
    List (String × ℚ) × (String → Option (ℚ × ℤ)) :=
  match readEnergy domain.energy_file with
  | none => acc
  | some energy_uj =>
    let stats := acc.1
    let lr := acc.2
    let stats :=
      match lr domain.path with
      | some (last_time, last_energy) =>
        let dt := now - last_time
        let de := energy_uj - last_energy
        let de := if de < 0 then de + domain.max_range else de
        if 0 < dt ∧ 0 ≤ de then
          dictSet stats domain.name (pyRound (((de : ℚ) / 1000000) / dt) 2)
        else stats
      | none => stats
    (stats, fun p => if p = domain.path then some (now, energy_uj) else lr p)

/-- `RaplReader.get_power_stats` (lines 88-126): bump the cleanup counter,
possibly prune stale prior readings, then process every domain in order.
Returns the `stats` dict and the updated reader state. -/
def get_power_stats (st : RaplState) (domains : List Domain) (now : ℚ)
    (readEnergy : String → Option ℤ) : List (String × ℚ) × RaplState :=
  let counter := st.cleanup_counter + 1
  let (counter, lr) :=
    if 300 < counter then (0, prune_last_readings st.last_readings now)
    else (counter, st.last_readings)
  let (stats, lr) := domains.foldl (process_domain now readEnergy) ([], lr)
  (stats, ⟨lr, counter⟩)

/-! ## The power section of `collect_stats` (src/app/main.py lines 727-774) -/

/-- Does `needle` occur as a contiguous sublist of `hay`?  (Python's
`needle in hay` on strings, over the character lists.) -/
def charsContain (needle : List Char) : List Char → Bool
  | [] => needle.isPrefixOf []
  | c :: t => needle.isPrefixOf (c :: t) || charsContain needle t

/-- Python's substring test `needle in hay`. -/
def strContains (hay needle : String) : Bool :=
  charsContain needle.toList hay.toList

/-- `psutil.sensors_battery()` result (only the fields `collect_stats`
copies). -/
structure Battery where
  percent : ℚ
  power_plugged : Bool
  secsleft : ℤ
deriving DecidableEq, Repr

/-- One `/sys/class/power_supply/<supply>` directory, as read by the sysfs
fallback: each field is `none` when the corresponding file is missing or
unreadable. -/
structure Supply where
  power_now : Option ℤ
  voltage_now : Option ℤ
  current_now : Option ℤ
deriving DecidableEq, Repr

/-- The `power_status` dict assembled by `collect_stats`; Python keys that
may be absent are `Option` fields. -/
structure PowerStatus where
  battery : Option Battery
  rapl : Option (List (String × ℚ))
  consumption_watts : Option ℚ
deriving DecidableEq, Repr

/-- `sum(v for k, v in rapl_stats.items() if "Package" in k)` (line 742). -/
def package_total (rapl_stats : List (String × ℚ)) : ℚ :=
  (rapl_stats.filter (fun kv => strContains kv.1 "Package")).foldl
    (fun s kv => s + kv.2) 0

/-- The wattage one power-supply directory contributes to the sysfs fallback
(lines 754-769): prefer `power_now`; otherwise use `voltage_now *
current_now`; contribute nothing if both reads fail. -/
def supply_watts (s : Supply) : ℚ :=
  match s.power_now with
  | some p => (p : ℚ) / 1000000
  | none =>
    match s.voltage_now, s.current_now with
    | some v, some c => ((v * c : ℤ) : ℚ) / 1000000000000
    | _, _ => 0

/-- The sysfs fallback total (lines 747-771).  `supplies = none` models a
missing `/sys/class/power_supply` directory or a listing failure. -/
def fallback_watts (supplies : Option (List Supply)) : ℚ :=
  match supplies with
  | none => 0
  | some l => l.foldl (fun acc s => acc + supply_watts s) 0

/-- Lines 727-774 of `collect_stats`: build `power_status` from the battery,
the RAPL stats and (only when no consumption figure was produced from RAPL)
the sysfs power-supply fallback. -/
def power_section (battery : Option Battery) (rapl_stats : List (String × ℚ))
    (supplies : Option (List Supply)) : PowerStatus :=
  let ps : PowerStatus := { battery := battery, rapl := none, consumption_watts := none }
  let ps :=
    if rapl_stats ≠ [] then
      let ps := { ps with rapl := some rapl_stats }
      let total_watts := package_total rapl_stats
      if 0 < total_watts then { ps with consumption_watts := some total_watts } else ps
    else ps
  if ps.consumption_watts = none then
    let power_watts := fallback_watts supplies
    if 0 < power_watts then { ps with consumption_watts := some (pyRound power_watts 4) }
    else ps
  else ps

/-! ## Aged caches

Each module-level cache of `main.py` is a pair (cached value, last refresh
time); the refresh computation's interaction with the OS is an input to the
step function, with `none` marking "the computation raised". -/

/-- State of the GPU-info cache (`_gpu_info_cache`, `_last_gpu_info_time`). -/
structure GpuCacheState where
  cache : Option String
  last_time : ℚ
deriving DecidableEq, Repr

/-- The hard-coded Intel GPU device-id table of `get_gpu_info`. -/
def intel_gpu_names : List (String × String) :=
  [("0x46d4", "Intel Alder Lake-N [UHD Graphics]"),
   ("0x46d1", "Intel Alder Lake-N [UHD Graphics]"),
   ("0x46d0", "Intel Alder Lake-N [UHD Graphics]")]

/-- `get_gpu_info` (lines 180-213).  `scan` is the outcome of the
drm-card scan: `some device` is the device id of the first card with Intel
vendor `0x8086`; `none` means no Intel card was found or the scan raised.
On a miss the cache is refreshed: either with the detected GPU string or
with the failure default `"Unknown GPU"`. -/
def get_gpu_info (st : GpuCacheState) (now : ℚ) (scan : Option String) :
    String × GpuCacheState :=
  if 60 < now - st.last_time ∨ st.cache = none then
    match scan with
    | some device =>
      let gpu_name := ((intel_gpu_names.lookup device).getD
        ("Intel Graphics [" ++ device ++ "]"))
      let v := gpu_name ++ " [Integrated]"
      (v, ⟨some v, now⟩)
    | none => ("Unknown GPU", ⟨some "Unknown GPU", now⟩)
  else
    ((st.cache).getD "Unknown GPU", st)

/-- State of the TCP connection-state cache. -/
structure ConnCacheState where
  cache : List (String × ℕ)
  last_time : ℚ
deriving DecidableEq, Repr

/-- The fixed state-name table initialised to zero on every refresh of
`get_connection_states` (lines 462-474). -/
def conn_state_names : List String :=
  ["ESTABLISHED", "SYN_SENT", "SYN_RECV", "FIN_WAIT1", "FIN_WAIT2",
   "TIME_WAIT", "CLOSE", "CLOSE_WAIT", "LAST_ACK", "LISTEN", "CLOSING"]

/-- `states[state] += 1` for a key already known to be present. -/
def dictBump (d : List (String × ℕ)) (k : String) : List (String × ℕ) :=
  d.map (fun kv => if kv.1 = k then (kv.1, kv.2 + 1) else kv)

/-- `get_connection_states` (lines 457-486).  `conns` is the list of TCP
connection status strings; `none` means `psutil.net_connections` raised, in
which case the freshly zeroed histogram is kept as is — and cached. -/
def get_connection_states (st : ConnCacheState) (now : ℚ)
    (conns : Option (List String)) : List (String × ℕ) × ConnCacheState :=
  if 10 < now - st.last_time then
    let states0 := conn_state_names.map (fun n => (n, 0))
    let states :=
      match conns with
      | none => states0
      | some cs =>
        cs.foldl (fun acc s => if acc.any (fun kv => kv.1 = s) then dictBump acc s else acc)
          states0
    (states, ⟨states, now⟩)
  else (st.cache, st)

/-- One record of the process table, with the fields the claims touch
(`get_top_processes` collects more; enrichment failures degrade individual
fields to `"-"` placeholders inside the record). -/
structure ProcRecord where
  pid : ℕ
  ppid : ℕ
  name : String
  username : String
  memory_percent : ℚ
  cpu_percent : ℚ
deriving DecidableEq, Repr

/-- State of the process-table cache. -/
structure ProcCacheState where
  cache : List ProcRecord
  last_time : ℚ
deriving DecidableEq, Repr

/-- The comparison `processes.sort(key=lambda x: x['memory_percent'],
reverse=True)` hands to Python's stable sort: descending by memory
percentage. -/
def memDescLe (a b : ProcRecord) : Bool := decide (b.memory_percent ≤ a.memory_percent)

/-- `get_top_processes` (lines 215-290).  `procs` is the raw process list
collected by the `psutil.process_iter` loop; `none` means the iteration
itself raised, leaving `processes = []` (per-process failures merely skip
or degrade single records and are part of the input list).  On refresh the
list is sorted descending by memory percentage (Python's sort is stable)
and cached — even when it is the empty failure result. -/
def get_top_processes (st : ProcCacheState) (now : ℚ)
    (procs : Option (List ProcRecord)) : List ProcRecord × ProcCacheState :=
  if 5 < now - st.last_time then
    let processes := (procs.getD []).mergeSort memDescLe
    (processes, ⟨processes, now⟩)
  else (st.cache, st)

/-- One SSH session row. -/
structure SshSession where
  user : String
  ip : String
  started : String
deriving DecidableEq, Repr

/-- The `ssh_stats` dict of `get_ssh_stats`. -/
structure SshStats where
  status : String
  connections : ℕ
  port : ℕ
  sessions : List SshSession
  auth_password : ℕ
  auth_publickey : ℕ
  auth_other : ℕ
  failed_logins : ℕ
  hostkey_fingerprint : String
  ssh_process_memory : ℚ
  history_size : ℕ
deriving DecidableEq, Repr

/-- The default `ssh_stats` dict rebuilt at the start of every refresh
(lines 492-503). -/
def ssh_default : SshStats :=
  { status := "Stopped", connections := 0, port := 22, sessions := [],
    auth_password := 0, auth_publickey := 0, auth_other := 0,
    failed_logins := 0, hostkey_fingerprint := "-", ssh_process_memory := 0,
    history_size := 0 }

/-- State of the SSH-stats cache (`_ssh_stats_cache`, `_last_ssh_time`). -/
structure SshCacheState where
  cache : SshStats
  last_time : ℚ
deriving DecidableEq, Repr

/-- `get_ssh_stats` (lines 488-627).  The whole refresh body is one big
`try` whose final statement assigns the cache; `compute = none` models an
exception escaping the inner per-step handlers (e.g. `psutil.net_connections`
raising), in which case the cache keeps its previous value while
`_last_ssh_time` is still advanced. -/
def get_ssh_stats (st : SshCacheState) (now : ℚ) (compute : Option SshStats) :
    SshStats × SshCacheState :=
  if 10 < now - st.last_time then
    match compute with
    | some s => (s, ⟨s, now⟩)
    | none => (st.cache, ⟨st.cache, now⟩)
  else (st.cache, st)

/-! ## History updates inside `collect_stats`
(src/app/main.py lines 693-725 and 776-796) -/

/-- One `_cpu_temp_history` sample (line 719-723). -/
structure TempSample where
  time : ℚ
  avg : ℚ
  cores : List ℚ
deriving DecidableEq, Repr

/-- One `_memory_history` sample (line 791-796). -/
structure MemSample where
  time : ℚ
  percent : ℚ
  used : ℤ
  available : ℤ
deriving DecidableEq, Repr

/-- The two history updates one `collect_stats` call performs.
`core_temps` is the list of CPU core temperatures extracted from
`psutil.sensors_temperatures()`; it is empty when the sensors call raised,
returned nothing, or no entry was a CPU core temperature — in that case no
temperature sample is appended (lines 715-723).  The memory sample is
appended unconditionally (lines 790-796). -/
def collect_histories (tempHist : List TempSample) (memHist : List MemSample)
    (now : ℚ) (core_temps : List ℚ) (mem_percent : ℚ) (mem_used mem_available : ℤ) :
    List TempSample × List MemSample :=
  let tempHist :=
    if core_temps ≠ [] then
      dequePush 60 tempHist
        { time := now,
          avg := pyRound (core_temps.sum / core_temps.length) 1,
          cores := core_temps }
    else tempHist
  let memHist :=
    dequePush 60 memHist
      { time := now, percent := mem_percent, used := mem_used,
        available := mem_available }
  (tempHist, memHist)

/-! ## build_process_tree (src/app/main.py lines 292-311) -/

/-- The keys of `pid_map = {p['pid']: p for p in processes}`. -/
def pids (processes : List ProcRecord) : List ℕ := processes.map (fun p => p.pid)

/-- The roots collected by `build_process_tree`: processes whose `ppid` is
not a key of `pid_map`, in input order. -/
def build_process_tree_roots (processes : List ProcRecord) : List ProcRecord :=
  processes.filter (fun p => ¬ processes.any (fun q => q.pid = p.ppid))

/-- The children list accumulated on the record(s) with pid `k`:
`pid_map[ppid]['children'].append(p)` appends each process whose `ppid`
equals `k`, in input order, provided `k` is a key of `pid_map`. -/
def build_process_tree_children (processes : List ProcRecord) (k : ℕ) :
    List ProcRecord :=
  if processes.any (fun q => q.pid = k) then
    processes.filter (fun p => p.ppid = k)
  else []

/-- `build_process_tree`: the returned forest, as its list of roots
together with the derived children map. -/
def build_process_tree (processes : List ProcRecord) :
    List ProcRecord × (ℕ → List ProcRecord) :=
  (build_process_tree_roots processes, build_process_tree_children processes)

/-! ## get_size (src/app/main.py lines 163-168) -/

/-- Render a nonnegative rational with exactly two digits after the decimal
point, as Python's `f"{x:.2f}"` does (round the scaled value half-to-even,
then print integer part, a dot, and the zero-padded two-digit remainder). -/
def formatFixed2 (q : ℚ) : String :=
  let n := roundHalfEven (q * 100)
  let whole := n / 100
  let frac := n % 100
  toString whole ++ "." ++ (if frac < 10 then "0" else "") ++ toString frac

/-- The unit-prefix list of `get_size`. -/
def size_units : List String := ["", "K", "M", "G", "T", "P"]

/-- The loop of `get_size`: try each unit in turn, dividing by 1024; when
the unit list is exhausted Python falls off the loop and returns `None`. -/
def get_size_go (suffix : String) : ℚ → List String → Option String
  | _, [] => none
  | b, unit :: rest =>
    if b < 1024 then some (formatFixed2 b ++ " " ++ unit ++ "i" ++ suffix)
    else get_size_go suffix (b / 1024) rest

/-- `get_size(bytes, suffix="B")`. -/
def get_size (bytes : ℚ) (suffix : String := "B") : Option String :=
  get_size_go suffix bytes size_units

/-! ## get_listening_ports (src/app/main.py lines 313-354) -/

/-- One entry of `psutil.net_connections()` as `get_listening_ports` reads
it: the status string, the local-address port (`none` when `conn.laddr` is
falsy), the numeric socket type and the process name already resolved from
`conn.pid` (the code falls back to `"PID <pid>"` on failure, so resolution
always yields a string). -/
structure NetConn where
  status : String
  laddr_port : Option ℕ
  ctype : ℤ
  procname : String
deriving DecidableEq, Repr

/-- The per-port dict value `{'tcp': None, 'udp': None}`. -/
structure PortEntry where
  tcp : Option String
  udp : Option String
deriving DecidableEq, Repr

/-- Update the entry of `port` in the association list. -/
def portMapSet (m : List (ℕ × PortEntry)) (port : ℕ) (f : PortEntry → PortEntry) :
    List (ℕ × PortEntry) :=
  m.map (fun kv => if kv.1 = port then (kv.1, f kv.2) else kv)

/-- The body of the first loop of `get_listening_ports` (lines 317-337): a
listening connection registers its port (creating the `{'tcp': None,
'udp': None}` entry if needed) and then stores the process name under its
protocol key; for an `OTHER` protocol the store raises `KeyError`, which the
per-connection handler swallows after the port has already been
registered. -/
def listening_ports_step (m : List (ℕ × PortEntry)) (c : NetConn) :
    List (ℕ × PortEntry) :=
  if c.status = "LISTEN" then
    match c.laddr_port with
    | some port =>
      let m := if m.any (fun kv => kv.1 = port) then m else m ++ [(port, ⟨none, none⟩)]
      if c.ctype = 1 then portMapSet m port (fun e => { e with tcp := some c.procname })
      else if c.ctype = 2 then portMapSet m port (fun e => { e with udp := some c.procname })
      else m
    | none => m
  else m

/-- The `proto_str` assembled for one port (lines 343-349). -/
def proto_str (e : PortEntry) : String :=
  let s := match e.tcp with | some n => "TCP:" ++ n | none => ""
  match e.udp with
  | some n => (if s ≠ "" then s ++ ", " else s) ++ "UDP:" ++ n
  | none => s

/-- `get_listening_ports` (lines 313-354): build the per-port map, then emit
`{"port": p, "protocol": ...}` for the first 20 ports in ascending order.
`conns = none` models `psutil.net_connections()` itself raising, which the
outer handler turns into `[]`. -/
def get_listening_ports (conns : Option (List NetConn)) : List (ℕ × String) :=
  match conns with
  | none => []
  | some cs =>
    let m := cs.foldl listening_ports_step []
    let ports := ((m.map (fun kv => kv.1)).mergeSort (fun a b => decide (a ≤ b))).take 20
    ports.map (fun p => (p, proto_str (((m.lookup p).getD ⟨none, none⟩))))

/-! ## Claims about the RAPL reader -/

/-- C1: for a domain with a stored prior reading whose register read
succeeds, `get_power_stats` emits a wattage for that domain iff
`dt = now - prior.timestamp > 0` and the wraparound-corrected
`de = current - prior.value` (plus `max_range` once when negative) is
nonnegative; the emitted value is `round((de / 1e6) / dt, 2)`, and
otherwise the stats dict is left unchanged for that domain. -/
theorem rapl_wattage_iff (now : ℚ) (readEnergy : String → Option ℤ)
    (stats : List (String × ℚ)) (lr : String → Option (ℚ × ℤ)) (d : Domain)
    (t0 : ℚ) (e0 e : ℤ)
    (hprior : lr d.path = some (t0, e0))
    (hread : readEnergy d.energy_file = some e) :
    ((0 < now - t0 ∧ 0 ≤ (if e - e0 < 0 then e - e0 + d.max_range else e - e0)) →
      (process_domain now readEnergy (stats, lr) d).1 =
        dictSet stats d.name
          (pyRound ((((if e - e0 < 0 then e - e0 + d.max_range else e - e0) : ℚ)
              / 1000000) / (now - t0)) 2))
    ∧ (¬ (0 < now - t0 ∧ 0 ≤ (if e - e0 < 0 then e - e0 + d.max_range else e - e0)) →
      (process_domain now readEnergy (stats, lr) d).1 = stats) := by
  unfold process_domain
  rw [hread]
  simp only [hprior]
  constructor
  · intro h
    simp only [if_pos h]
    congr 1
    push_cast
    rfl
  · intro h
    simp only [if_neg h]

/-- Witness for C1 at a concrete input: prior reading `(0, 100)`, current
read `4000100` at `now = 2`, no wraparound, so a wattage is emitted. -/
theorem rapl_wattage_iff_witness :
    (process_domain 2
        (fun f => if f = "/sys/class/powercap/intel-rapl:0/energy_uj" then some 4000100 else none)
        ([], fun p => if p = "/sys/class/powercap/intel-rapl:0" then some (0, 100) else none)
        ⟨"/sys/class/powercap/intel-rapl:0", "Package-0",
          "/sys/class/powercap/intel-rapl:0/energy_uj", 262143328850⟩).1 =
      dictSet [] "Package-0"
        (pyRound ((((if (4000100 : ℤ) - 100 < 0 then (4000100 : ℤ) - 100 + 262143328850
            else (4000100 : ℤ) - 100) : ℚ) / 1000000) / ((2 : ℚ) - 0)) 2) :=
  (rapl_wattage_iff 2 _ [] _ _ 0 100 4000100 rfl rfl).1
    (by refine ⟨by norm_num, ?_⟩; rw [if_neg (by norm_num)]; norm_num)

/-- C3: whenever a domain's energy register is successfully read during
`get_power_stats`, the stored prior reading for that domain's path is
overwritten with the current `(timestamp, value)` pair — whether or not a
wattage was emitted, and also on the first-ever reading. -/
theorem rapl_prior_overwritten (now : ℚ) (readEnergy : String → Option ℤ)
    (acc : List (String × ℚ) × (String → Option (ℚ × ℤ))) (d : Domain) (e : ℤ)
    (hread : readEnergy d.energy_file = some e) :
    (process_domain now readEnergy acc d).2 d.path = some (now, e) := by
  unfold process_domain
  rw [hread]
  cases h : acc.2 d.path with
  | none => simp
  | some te => simp

/-- Witness for C3: a first-ever reading (no prior stored) still stores the
current pair. -/
theorem rapl_prior_overwritten_witness :
    (process_domain 7
        (fun f => if f = "/sys/class/powercap/intel-rapl:0/energy_uj" then some 555 else none)
        ([], fun _ => none)
        ⟨"/sys/class/powercap/intel-rapl:0", "Package-0",
          "/sys/class/powercap/intel-rapl:0/energy_uj", 262143328850⟩).2
      "/sys/class/powercap/intel-rapl:0" = some (7, 555) :=
  rapl_prior_overwritten 7 _ _ _ 555 rfl

/-! ## Claim about the power-source mutual exclusion in `collect_stats` -/

/-- C2: if the sum of RAPL wattages over domains whose name contains
`"Package"` is strictly positive, `consumption_watts` equals that sum — for
every possible sysfs state, i.e. the fallback is skipped; otherwise
`consumption_watts` is whatever the `/sys/class/power_supply` fallback
produces (its rounded total when positive, absent otherwise). -/
theorem power_mutual_exclusion (battery : Option Battery)
    (rapl_stats : List (String × ℚ)) (supplies : Option (List Supply)) :
    (0 < package_total rapl_stats →
      (power_section battery rapl_stats supplies).consumption_watts =
        some (package_total rapl_stats))
    ∧ (¬ 0 < package_total rapl_stats →
      (power_section battery rapl_stats supplies).consumption_watts =
        (if 0 < fallback_watts supplies then some (pyRound (fallback_watts supplies) 4)
         else none)) := by
  constructor
  · intro hpos
    have hne : rapl_stats ≠ [] := by
      intro hnil
      rw [hnil] at hpos
      simp [package_total] at hpos
    simp only [power_section, if_pos hne, if_pos hpos]
    simp
  · intro hneg
    rcases eq_or_ne rapl_stats [] with hnil | hne
    · subst hnil
      simp only [power_section]
      simp [apply_ite PowerStatus.consumption_watts]
    · simp only [power_section, if_pos hne, if_neg hneg]
      simp [apply_ite PowerStatus.consumption_watts]

/-- Witness for C2: one positive package reading forces
`consumption_watts` to the package total even though a sysfs supply with
3 W is present. -/
theorem power_mutual_exclusion_witness :
    (power_section none [("Package-0", 5)]
        (some [⟨some 3000000, none, none⟩])).consumption_watts =
      some (package_total [("Package-0", 5)]) :=
  (power_mutual_exclusion none [("Package-0", 5)] (some [⟨some 3000000, none, none⟩])).1
    (by norm_num [package_total, strContains, charsContain, List.isPrefixOf])

/-! ## Claim about the caches' failure policy -/

/-- C4 counterexample: the GPU cache holds a previously computed good value,
the refresh scan fails, and the cache is overwritten with the failure
default `"Unknown GPU"` — it does not keep returning the last good value. -/
theorem cache_failure_policy_counterexample :
    (get_gpu_info ⟨some "Intel Alder Lake-N [UHD Graphics] [Integrated]", 0⟩ 100 none).2.cache
        = some "Unknown GPU"
    ∧ (get_gpu_info ⟨some "Intel Alder Lake-N [UHD Graphics] [Integrated]", 0⟩ 100 none).1
        = "Unknown GPU"
    ∧ some "Unknown GPU" ≠ some "Intel Alder Lake-N [UHD Graphics] [Integrated]" := by
  refine ⟨?_, ?_, by simp⟩ <;>
    · rw [get_gpu_info, if_pos (Or.inl (by norm_num))]

/-- C4 (amended): the SSH-stats cache keeps serving and storing the last
good value when its refresh computation fails, but the GPU, TCP
connection-state and process-table caches overwrite the cached value with
the failure-produced default (`"Unknown GPU"`, the all-zero histogram and
the empty list respectively) when their refresh fails. -/
theorem cache_failure_policy
    (sshSt : SshCacheState) (gpuSt : GpuCacheState) (connSt : ConnCacheState)
    (procSt : ProcCacheState) (now : ℚ)
    (hssh : 10 < now - sshSt.last_time)
    (hgpu : 60 < now - gpuSt.last_time)
    (hconn : 10 < now - connSt.last_time)
    (hproc : 5 < now - procSt.last_time) :
    (get_ssh_stats sshSt now none).1 = sshSt.cache
    ∧ (get_ssh_stats sshSt now none).2.cache = sshSt.cache
    ∧ (get_gpu_info gpuSt now none).2.cache = some "Unknown GPU"
    ∧ (get_connection_states connSt now none).2.cache =
        conn_state_names.map (fun n => (n, 0))
    ∧ (get_top_processes procSt now none).2.cache = [] := by
  refine ⟨?_, ?_, ?_, ?_, ?_⟩
  · rw [get_ssh_stats, if_pos hssh]
  · rw [get_ssh_stats, if_pos hssh]
  · rw [get_gpu_info, if_pos (Or.inl hgpu)]
  · rw [get_connection_states, if_pos hconn]
  · rw [get_top_processes, if_pos hproc]
    simp [List.mergeSort]

/-- Witness for C4 (amended) at concrete cache states and `now = 100`. -/
theorem cache_failure_policy_witness :
    (get_ssh_stats ⟨{ ssh_default with status := "Running" }, 0⟩ 100 none).1 =
      { ssh_default with status := "Running" }
    ∧ (get_ssh_stats ⟨{ ssh_default with status := "Running" }, 0⟩ 100 none).2.cache =
      { ssh_default with status := "Running" }
    ∧ (get_gpu_info ⟨some "Intel Graphics [0xabcd] [Integrated]", 0⟩ 100 none).2.cache =
      some "Unknown GPU"
    ∧ (get_connection_states ⟨[("ESTABLISHED", 3)], 0⟩ 100 none).2.cache =
        conn_state_names.map (fun n => (n, 0))
    ∧ (get_top_processes ⟨[⟨1, 0, "init", "root", 1/2, 0⟩], 0⟩ 100 none).2.cache = [] :=
  cache_failure_policy ⟨{ ssh_default with status := "Running" }, 0⟩
    ⟨some "Intel Graphics [0xabcd] [Integrated]", 0⟩ ⟨[("ESTABLISHED", 3)], 0⟩
    ⟨[⟨1, 0, "init", "root", 1/2, 0⟩], 0⟩ 100
    (by norm_num) (by norm_num) (by norm_num) (by norm_num)

/-! ## Claim about the history ring buffer -/

/-- C5: pushing 61 items into the empty capacity-60 history deque leaves
exactly the last 60 pushed items in insertion order — the first pushed item
is absent (when it does not recur later) and the last pushed item is
present; pushing at most 60 items keeps all of them, in order. -/
theorem history_ring_buffer (xs : List ℕ) :
    (xs.length = 61 →
      dequePushAll 60 [] xs = xs.drop 1
      ∧ (dequePushAll 60 [] xs).length = 60
      ∧ (∀ a, xs.getLast? = some a → a ∈ dequePushAll 60 [] xs)
      ∧ (∀ a, xs.head? = some a → a ∉ xs.drop 1 → a ∉ dequePushAll 60 [] xs))
    ∧ (xs.length ≤ 60 → dequePushAll 60 [] xs = xs) := by
  have hbase := dequePushAll_eq_drop 60 (by norm_num) xs [] (by simp)
  simp only [List.nil_append] at hbase
  constructor
  · intro hlen
    have hdrop : dequePushAll 60 [] xs = xs.drop 1 := by
      rw [hbase, hlen]
    refine ⟨hdrop, ?_, ?_, ?_⟩
    · rw [hdrop]
      simp [hlen]
    · intro a hlast
      rw [hdrop]
      rw [List.getLast?_eq_getElem?, hlen] at hlast
      have h59 : (xs.drop 1)[59]? = some a := by
        rw [List.getElem?_drop]
        simpa using hlast
      exact List.getElem?_mem h59
    · intro a _ hnot
      rw [hdrop]
      exact hnot
  · intro hlen
    rw [hbase]
    have h0 : xs.length - 60 = 0 := by omega
    simp [h0]

/-- Witness for C5: pushing `0, 1, ..., 60` leaves `1, ..., 60`; item 60 is
present, item 0 is gone; pushing only `0, ..., 4` keeps everything. -/
theorem history_ring_buffer_witness :
    dequePushAll 60 [] (List.range 61) = (List.range 61).drop 1
    ∧ (dequePushAll 60 [] (List.range 61)).length = 60
    ∧ 60 ∈ dequePushAll 60 [] (List.range 61)
    ∧ 0 ∉ dequePushAll 60 [] (List.range 61)
    ∧ dequePushAll 60 [] (List.range 5) = List.range 5 := by
  have h := (history_ring_buffer (List.range 61)).1 (by simp)
  exact ⟨h.1, h.2.1, h.2.2.1 60 (by decide), h.2.2.2 0 (by decide) (by decide),
    (history_ring_buffer (List.range 5)).2 (by simp)⟩

/-! ## Claim about the per-tick history updates -/

/-- C6 counterexample: a `collect_stats` tick on a host with no CPU core
temperature readings appends nothing to the CPU-temperature history (it
stays empty), while the memory history still gains its sample — so "exactly
one sample per tick" fails for the temperature series. -/
theorem history_per_tick_counterexample :
    (collect_histories [] [] 5 [] (1/2) 100 200).1 = ([] : List TempSample)
    ∧ ((collect_histories [] [] 5 [] (1/2) 100 200).2).length = 1 := by
  constructor
  · rw [collect_histories]
    simp
  · rw [collect_histories]
    simp [dequePush]

/-- C6 (amended): every `collect_stats` call appends exactly one sample to
the memory-utilization history, unconditionally; it appends exactly one
sample to the CPU-core-temperature history iff at least one CPU core
temperature was read this tick, and leaves that history untouched
otherwise.  Neither update depends on any aged-cache state (the caches are
not even inputs of the update). -/
theorem history_per_tick (tempHist : List TempSample) (memHist : List MemSample)
    (now : ℚ) (core_temps : List ℚ) (mem_percent : ℚ) (mem_used mem_available : ℤ) :
    (collect_histories tempHist memHist now core_temps mem_percent mem_used mem_available).2 =
      dequePush 60 memHist
        { time := now, percent := mem_percent, used := mem_used,
          available := mem_available }
    ∧ (core_temps ≠ [] →
      (collect_histories tempHist memHist now core_temps mem_percent mem_used
          mem_available).1 =
        dequePush 60 tempHist
          { time := now,
            avg := pyRound (core_temps.sum / core_temps.length) 1,
            cores := core_temps })
    ∧ (core_temps = [] →
      (collect_histories tempHist memHist now core_temps mem_percent mem_used
          mem_available).1 = tempHist) := by
  refine ⟨by rw [collect_histories], ?_, ?_⟩
  · intro h
    rw [collect_histories]
    simp [h]
  · intro h
    rw [collect_histories]
    simp [h]

/-- Witness for C6 at one tick with a core reading and one without. -/
theorem history_per_tick_witness :
    (collect_histories [] [] 3 [21] (1/2) 100 200).1 =
      dequePush 60 []
        { time := 3, avg := pyRound (List.sum [21] / (List.length [21] : ℚ)) 1,
          cores := [21] }
    ∧ (collect_histories [] [] 3 [] (1/2) 100 200).1 = ([] : List TempSample) :=
  ⟨(history_per_tick [] [] 3 [21] (1/2) 100 200).2.1 (by simp),
   (history_per_tick [] [] 3 [] (1/2) 100 200).2.2 rfl⟩

/-! ## Claim about the process-table sort -/

/-- `memDescLe` is transitive. -/
theorem memDescLe_trans (a b c : ProcRecord) :
    memDescLe a b → memDescLe b c → memDescLe a c := by
  simp only [memDescLe, decide_eq_true_eq]
  exact fun h1 h2 => le_trans h2 h1

/-- `memDescLe` is total. -/
theorem memDescLe_total (a b : ProcRecord) : memDescLe a b || memDescLe b a := by
  simp only [memDescLe]
  rcases le_total a.memory_percent b.memory_percent with h | h <;> simp [h]

/-- C7: the flat list produced on a process-table refresh is a permutation
of the raw input, sorted in descending order of memory percentage, and
records with equal memory percentage keep their input order (the sort is
stable: filtering either list to one memory percentage yields identical
sublists). -/
theorem process_sort (st : ProcCacheState) (now : ℚ) (ps : List ProcRecord)
    (h : 5 < now - st.last_time) :
    (get_top_processes st now (some ps)).1.Perm ps
    ∧ (get_top_processes st now (some ps)).1.Pairwise
        (fun a b => b.memory_percent ≤ a.memory_percent)
    ∧ ∀ v : ℚ,
        (get_top_processes st now (some ps)).1.filter (fun p => p.memory_percent = v) =
          ps.filter (fun p => p.memory_percent = v) := by
  rw [get_top_processes, if_pos h]
  simp only [Option.getD_some]
  refine ⟨List.mergeSort_perm ps memDescLe, ?_, ?_⟩
  · have hs := List.sorted_mergeSort memDescLe_trans memDescLe_total ps
    exact hs.imp (by simp only [memDescLe, decide_eq_true_eq]; exact id)
  · intro v
    set pred : ProcRecord → Bool := fun p => p.memory_percent = v with hpred
    have hpair : (ps.filter pred).Pairwise (fun a b => memDescLe a b) := by
      apply List.pairwise_of_forall_mem_list
      intro a ha b hb
      have ha' := (List.mem_filter.mp ha).2
      have hb' := (List.mem_filter.mp hb).2
      simp only [hpred, decide_eq_true_eq] at ha' hb'
      simp [memDescLe, ha', hb']
    have hsub : List.Sublist (ps.filter pred) (ps.mergeSort memDescLe) :=
      List.sublist_mergeSort memDescLe_trans memDescLe_total hpair
        (List.filter_sublist ps)
    have hsub2 : List.Sublist ((ps.filter pred).filter pred)
        ((ps.mergeSort memDescLe).filter pred) :=
      hsub.filter pred
    rw [List.filter_filter] at hsub2
    simp only [Bool.and_self] at hsub2
    have hperm : ((ps.mergeSort memDescLe).filter pred).Perm (ps.filter pred) :=
      (List.mergeSort_perm ps memDescLe).filter pred
    exact ((hsub2.eq_of_length hperm.length_eq.symm).symm)

/-- Witness for C7: three processes, two tied at 1/2 memory, are returned
sorted descending with the tie kept in input order. -/
theorem process_sort_witness :
    (get_top_processes ⟨[], 0⟩ 10
        (some [⟨1, 0, "a", "u", 1/2, 0⟩, ⟨2, 0, "b", "u", 3/4, 0⟩,
               ⟨3, 0, "c", "u", 1/2, 0⟩])).1.Perm
      [⟨1, 0, "a", "u", 1/2, 0⟩, ⟨2, 0, "b", "u", 3/4, 0⟩, ⟨3, 0, "c", "u", 1/2, 0⟩]
    ∧ (get_top_processes ⟨[], 0⟩ 10
        (some [⟨1, 0, "a", "u", 1/2, 0⟩, ⟨2, 0, "b", "u", 3/4, 0⟩,
               ⟨3, 0, "c", "u", 1/2, 0⟩])).1.Pairwise
        (fun a b => b.memory_percent ≤ a.memory_percent)
    ∧ (get_top_processes ⟨[], 0⟩ 10
        (some [⟨1, 0, "a", "u", 1/2, 0⟩, ⟨2, 0, "b", "u", 3/4, 0⟩,
               ⟨3, 0, "c", "u", 1/2, 0⟩])).1.filter
          (fun p => p.memory_percent = 1/2) =
        [⟨1, 0, "a", "u", 1/2, 0⟩, ⟨3, 0, "c", "u", 1/2, 0⟩] := by
  have h := process_sort ⟨[], 0⟩ 10
    [⟨1, 0, "a", "u", 1/2, 0⟩, ⟨2, 0, "b", "u", 3/4, 0⟩, ⟨3, 0, "c", "u", 1/2, 0⟩]
    (by norm_num)
  refine ⟨h.1, h.2.1, ?_⟩
  rw [h.2.2 (1/2)]
  norm_num

/-! ## Claim about the process tree -/

/-- C8: `build_process_tree` returns as roots exactly the input processes
whose declared parent pid does not occur as a pid in the input, and every
non-root process appears in the children list attached to its parent's
pid. -/
theorem process_tree (ps : List ProcRecord) (p : ProcRecord) :
    (p ∈ (build_process_tree ps).1 ↔ p ∈ ps ∧ p.ppid ∉ pids ps)
    ∧ (p ∈ ps → p.ppid ∈ pids ps → p ∈ (build_process_tree ps).2 p.ppid) := by
  constructor
  · rw [build_process_tree]
    simp only [build_process_tree_roots, List.mem_filter, List.any_eq_true,
      decide_eq_true_eq, pids, List.mem_map, decide_not, Bool.not_eq_true',
      decide_eq_false_iff_not]
  · intro hp hpid
    rw [build_process_tree]
    simp only [build_process_tree_children]
    rw [pids, List.mem_map] at hpid
    obtain ⟨q, hq, hqe⟩ := hpid
    rw [if_pos (List.any_eq_true.mpr ⟨q, hq, by simp [hqe]⟩)]
    exact List.mem_filter.mpr ⟨hp, by simp⟩

/-- Witness for C8: the spec's example — processes
`[{pid 1, ppid 0}, {pid 2, ppid 1}, {pid 3, ppid 99}]` with pids 0 and 99
absent give roots 1 and 3, and pid 2 hangs under pid 1. -/
theorem process_tree_witness :
    ((⟨3, 99, "c", "u", 0, 0⟩ : ProcRecord) ∈
      (build_process_tree [⟨1, 0, "a", "u", 0, 0⟩, ⟨2, 1, "b", "u", 0, 0⟩,
        ⟨3, 99, "c", "u", 0, 0⟩]).1)
    ∧ ((⟨1, 0, "a", "u", 0, 0⟩ : ProcRecord) ∈
      (build_process_tree [⟨1, 0, "a", "u", 0, 0⟩, ⟨2, 1, "b", "u", 0, 0⟩,
        ⟨3, 99, "c", "u", 0, 0⟩]).1)
    ∧ ((⟨2, 1, "b", "u", 0, 0⟩ : ProcRecord) ∈
      (build_process_tree [⟨1, 0, "a", "u", 0, 0⟩, ⟨2, 1, "b", "u", 0, 0⟩,
        ⟨3, 99, "c", "u", 0, 0⟩]).2 1) :=
  ⟨(process_tree _ _).1.mpr ⟨by simp, by simp [pids]⟩,
   (process_tree _ _).1.mpr ⟨by simp, by simp [pids]⟩,
   (process_tree _ ⟨2, 1, "b", "u", 0, 0⟩).2 (by simp) (by simp [pids])⟩

/-! ## Claim about the size formatter -/

/-- C9 counterexample: at `bytes = 1024^6` the loop exhausts the unit list
and Python falls off the `for`, returning `None` — no string at all, so the
formatter does not return a formatted string for *every* non-negative byte
count. -/
theorem get_size_counterexample : get_size ((1024 : ℚ) ^ 6) = none := by
  norm_num [get_size, size_units, get_size_go]

/-- C9 (amended): for every non-negative byte count below `1024^6`, the
size formatter returns the value scaled by the chosen power of 1024,
rendered with exactly two decimal places, a space, the unit prefix and the
`"iB"` suffix; the chosen unit is the largest one whose scaled value is at
least 1 (with counts below 1024 rendered in the base unit, whose prefix is
empty).  For counts at and above `1024^6` no string is returned. -/
theorem get_size_format (b : ℚ) (k : ℕ) (hk : k < 6) (h0 : 0 ≤ b)
    (hub : b < 1024 ^ (k + 1)) (hlb : 1024 ^ k ≤ b ∨ k = 0) :
    get_size b = some (formatFixed2 (b / 1024 ^ k) ++ " " ++
      size_units.getD k "" ++ "i" ++ "B") := by
  have hp : (0 : ℚ) < 1024 := by norm_num
  interval_cases k
  · -- base unit
    norm_num at hub
    simp only [get_size, size_units, get_size_go]
    rw [if_pos hub]
    norm_num
  · obtain hlb | hk0 := hlb
    case inr => omega
    norm_num at hlb hub
    have h1 : ¬ b < 1024 := by linarith
    have hfin : b / 1024 < 1024 := by rw [div_lt_iff₀ hp]; linarith
    simp only [get_size, size_units, get_size_go]
    rw [if_neg h1, if_pos hfin]
    norm_num
  · obtain hlb | hk0 := hlb
    case inr => omega
    norm_num at hlb hub
    have h1 : ¬ b < 1024 := by linarith
    have h2 : ¬ b / 1024 < 1024 := by
      rw [not_lt, le_div_iff₀ hp]; linarith
    have hfin : b / 1024 / 1024 < 1024 := by
      rw [div_lt_iff₀ hp, div_lt_iff₀ hp]; linarith
    simp only [get_size, size_units, get_size_go]
    rw [if_neg h1, if_neg h2, if_pos hfin]
    rw [div_div]
    norm_num
  · obtain hlb | hk0 := hlb
    case inr => omega
    norm_num at hlb hub
    have h1 : ¬ b < 1024 := by linarith
    have h2 : ¬ b / 1024 < 1024 := by
      rw [not_lt, le_div_iff₀ hp]; linarith
    have h3 : ¬ b / 1024 / 1024 < 1024 := by
      rw [not_lt, le_div_iff₀ hp, le_div_iff₀ hp]; linarith
    have hfin : b / 1024 / 1024 / 1024 < 1024 := by
      rw [div_lt_iff₀ hp, div_lt_iff₀ hp, div_lt_iff₀ hp]; linarith
    simp only [get_size, size_units, get_size_go]
    rw [if_neg h1, if_neg h2, if_neg h3, if_pos hfin]
    rw [div_div, div_div]
    norm_num
  · obtain hlb | hk0 := hlb
    case inr => omega
    norm_num at hlb hub
    have h1 : ¬ b < 1024 := by linarith
    have h2 : ¬ b / 1024 < 1024 := by
      rw [not_lt, le_div_iff₀ hp]; linarith
    have h3 : ¬ b / 1024 / 1024 < 1024 := by
      rw [not_lt, le_div_iff₀ hp, le_div_iff₀ hp]; linarith
    have h4 : ¬ b / 1024 / 1024 / 1024 < 1024 := by
      rw [not_lt, le_div_iff₀ hp, le_div_iff₀ hp, le_div_iff₀ hp]; linarith
    have hfin : b / 1024 / 1024 / 1024 / 1024 < 1024 := by
      rw [div_lt_iff₀ hp, div_lt_iff₀ hp, div_lt_iff₀ hp, div_lt_iff₀ hp]; linarith
    simp only [get_size, size_units, get_size_go]
    rw [if_neg h1, if_neg h2, if_neg h3, if_neg h4, if_pos hfin]
    rw [div_div, div_div, div_div]
    norm_num
  · obtain hlb | hk0 := hlb
    case inr => omega
    norm_num at hlb hub
    have h1 : ¬ b < 1024 := by linarith
    have h2 : ¬ b / 1024 < 1024 := by
      rw [not_lt, le_div_iff₀ hp]; linarith
    have h3 : ¬ b / 1024 / 1024 < 1024 := by
      rw [not_lt, le_div_iff₀ hp, le_div_iff₀ hp]; linarith
    have h4 : ¬ b / 1024 / 1024 / 1024 < 1024 := by
      rw [not_lt, le_div_iff₀ hp, le_div_iff₀ hp, le_div_iff₀ hp]; linarith
    have h5 : ¬ b / 1024 / 1024 / 1024 / 1024 < 1024 := by
      rw [not_lt, le_div_iff₀ hp, le_div_iff₀ hp, le_div_iff₀ hp, le_div_iff₀ hp]
      linarith
    have hfin : b / 1024 / 1024 / 1024 / 1024 / 1024 < 1024 := by
      rw [div_lt_iff₀ hp, div_lt_iff₀ hp, div_lt_iff₀ hp, div_lt_iff₀ hp,
        div_lt_iff₀ hp]
      linarith
    simp only [get_size, size_units, get_size_go]
    rw [if_neg h1, if_neg h2, if_neg h3, if_neg h4, if_neg h5, if_pos hfin]
    rw [div_div, div_div, div_div, div_div]
    norm_num

/-- Witness for C9: 1536 bytes render in the "K" unit as the scaled value
`1536 / 1024` with the `"KiB"` suffix. -/
theorem get_size_format_witness :
    get_size 1536 = some (formatFixed2 ((1536 : ℚ) / 1024 ^ 1) ++ " " ++
      size_units.getD 1 "" ++ "i" ++ "B") :=
  get_size_format 1536 1 (by norm_num) (by norm_num) (by norm_num)
    (Or.inl (by norm_num))

/-! ## Claim about the listening-ports list -/

theorem portMapSet_keys (m : List (ℕ × PortEntry)) (port : ℕ)
    (f : PortEntry → PortEntry) :
    (portMapSet m port f).map Prod.fst = m.map Prod.fst := by
  unfold portMapSet
  rw [List.map_map]
  apply List.map_congr_left
  intro kv _
  by_cases h : kv.1 = port <;> simp [h, Function.comp]

/-- Effect of one connection on the key list of the per-port map: a
listening connection with a port not yet present appends that port; every
other connection leaves the keys unchanged. -/
theorem listening_ports_step_keys (m : List (ℕ × PortEntry)) (c : NetConn) :
    (listening_ports_step m c).map Prod.fst =
      m.map Prod.fst ++
        (match c.laddr_port with
         | some p =>
           if c.status = "LISTEN" ∧ p ∉ m.map Prod.fst then [p] else []
         | none => []) := by
  unfold listening_ports_step
  by_cases hs : c.status = "LISTEN"
  · rw [if_pos hs]
    cases hl : c.laddr_port with
    | none => simp
    | some p =>
      dsimp only
      by_cases hmem : p ∈ m.map Prod.fst
      · have hany : m.any (fun kv => kv.1 = p) = true := by
          rw [List.any_eq_true]
          obtain ⟨kv, hkv, hfst⟩ := List.mem_map.mp hmem
          exact ⟨kv, hkv, by simp [hfst]⟩
        rw [if_pos hany]
        by_cases h1 : c.ctype = 1
        · simp [h1, portMapSet_keys, hs, hmem]
        · by_cases h2 : c.ctype = 2 <;>
            simp [h1, h2, portMapSet_keys, hs, hmem]
      · have hany : ¬ m.any (fun kv => kv.1 = p) = true := by
          rw [List.any_eq_true]
          rintro ⟨kv, hkv, hfst⟩
          exact hmem (List.mem_map.mpr ⟨kv, hkv, by simpa using hfst⟩)
        rw [if_neg hany]
        by_cases h1 : c.ctype = 1
        · simp [h1, portMapSet_keys, hs, hmem]
        · by_cases h2 : c.ctype = 2 <;>
            simp [h1, h2, portMapSet_keys, hs, hmem]
  · rw [if_neg hs]
    cases hl : c.laddr_port <;> · dsimp only; simp [hs]

/-- The key list of the accumulated per-port map stays duplicate-free. -/
theorem listening_ports_fold_nodup (cs : List NetConn) :
    ∀ m : List (ℕ × PortEntry), (m.map Prod.fst).Nodup →
      ((cs.foldl listening_ports_step m).map Prod.fst).Nodup := by
  induction cs with
  | nil => exact fun m h => h
  | cons c cs ih =>
    intro m h
    rw [List.foldl_cons]
    apply ih
    rw [listening_ports_step_keys]
    cases c.laddr_port with
    | none => simpa using h
    | some p =>
      dsimp only
      by_cases hc : c.status = "LISTEN" ∧ p ∉ m.map Prod.fst
      · rw [if_pos hc]
        simp [List.nodup_append, h, hc.2]
      · rw [if_neg hc]
        simpa using h

/-- Membership effect of one connection on the key set. -/
theorem listening_ports_step_mem (m : List (ℕ × PortEntry)) (c : NetConn) (p : ℕ) :
    p ∈ (listening_ports_step m c).map Prod.fst ↔
      p ∈ m.map Prod.fst ∨ (c.status = "LISTEN" ∧ c.laddr_port = some p) := by
  rw [listening_ports_step_keys]
  cases hl : c.laddr_port with
  | none => simp
  | some q =>
    dsimp only
    by_cases hc : c.status = "LISTEN" ∧ q ∉ m.map Prod.fst
    · rw [if_pos hc]
      simp only [List.mem_append, List.mem_singleton, Option.some.injEq]
      constructor
      · rintro (h | rfl)
        · exact Or.inl h
        · exact Or.inr ⟨hc.1, rfl⟩
      · rintro (h | ⟨-, rfl⟩)
        · exact Or.inl h
        · exact Or.inr rfl
    · rw [if_neg hc]
      push_neg at hc
      simp only [List.append_nil, Option.some.injEq]
      constructor
      · exact Or.inl
      · rintro (h | ⟨hst, rfl⟩)
        · exact h
        · exact hc hst

/-- A port is a key of the accumulated map exactly when some connection in
the input is a listening connection on that port (or it was already a
key). -/
theorem listening_ports_fold_mem (cs : List NetConn) :
    ∀ (m : List (ℕ × PortEntry)) (p : ℕ),
      p ∈ (cs.foldl listening_ports_step m).map Prod.fst ↔
        p ∈ m.map Prod.fst ∨
          ∃ c ∈ cs, c.status = "LISTEN" ∧ c.laddr_port = some p := by
  induction cs with
  | nil => simp
  | cons c cs ih =>
    intro m p
    rw [List.foldl_cons, ih, listening_ports_step_mem]
    simp only [List.mem_cons]
    constructor
    · rintro ((h | h) | ⟨c', hc', hp⟩)
      · exact Or.inl h
      · exact Or.inr ⟨c, Or.inl rfl, h⟩
      · exact Or.inr ⟨c', Or.inr hc', hp⟩
    · rintro (h | ⟨c', rfl | hc', hp⟩)
      · exact Or.inl (Or.inl h)
      · exact Or.inl (Or.inr hp)
      · exact Or.inr ⟨c', hc', hp⟩

/-- C10: `get_listening_ports` returns the empty list when enumerating
connections fails entirely; otherwise at most 20 entries, with strictly
ascending port numbers, every returned port belonging to some listening
connection of the input, and no listening port smaller than a returned port
is ever omitted (so the result covers the 20 smallest listening ports). -/
theorem listening_ports_shape (cs : List NetConn) :
    get_listening_ports none = []
    ∧ (get_listening_ports (some cs)).length ≤ 20
    ∧ ((get_listening_ports (some cs)).map Prod.fst).Pairwise (fun a b => a < b)
    ∧ (∀ p, p ∈ (get_listening_ports (some cs)).map Prod.fst →
        ∃ c ∈ cs, c.status = "LISTEN" ∧ c.laddr_port = some p)
    ∧ (∀ p q, p ∈ (get_listening_ports (some cs)).map Prod.fst →
        (∃ c ∈ cs, c.status = "LISTEN" ∧ c.laddr_port = some q) → q < p →
        q ∈ (get_listening_ports (some cs)).map Prod.fst)
    ∧ (∀ q, (∃ c ∈ cs, c.status = "LISTEN" ∧ c.laddr_port = some q) →
        q ∈ (get_listening_ports (some cs)).map Prod.fst ∨
          (get_listening_ports (some cs)).length = 20) := by
  have htrans : ∀ a b c : ℕ,
      (fun a b : ℕ => decide (a ≤ b)) a b → (fun a b : ℕ => decide (a ≤ b)) b c →
      (fun a b : ℕ => decide (a ≤ b)) a c := by
    simp only [decide_eq_true_eq]
    exact fun a b c => Nat.le_trans
  have htotal : ∀ a b : ℕ,
      (fun a b : ℕ => decide (a ≤ b)) a b || (fun a b : ℕ => decide (a ≤ b)) b a := by
    intro a b
    rcases Nat.le_total a b with h | h <;> simp [h]
  have hkeysnodup : (((cs.foldl listening_ports_step []).map Prod.fst)).Nodup :=
    listening_ports_fold_nodup cs [] (by simp)
  have hsortnodup :
      (((cs.foldl listening_ports_step []).map Prod.fst).mergeSort
        (fun a b => decide (a ≤ b))).Nodup :=
    (List.mergeSort_perm _ _).nodup_iff.mpr hkeysnodup
  have hsortle :
      (((cs.foldl listening_ports_step []).map Prod.fst).mergeSort
        (fun a b => decide (a ≤ b))).Pairwise (fun a b => a ≤ b) :=
    (List.sorted_mergeSort htrans htotal _).imp (by simp only [decide_eq_true_eq]; exact id)
  have hsortlt :
      (((cs.foldl listening_ports_step []).map Prod.fst).mergeSort
        (fun a b => decide (a ≤ b))).Pairwise (fun a b => a < b) :=
    (hsortle.and hsortnodup).imp (fun h => lt_of_le_of_ne h.1 h.2)
  have hmapfst : (get_listening_ports (some cs)).map Prod.fst =
      (((cs.foldl listening_ports_step []).map Prod.fst).mergeSort
        (fun a b => decide (a ≤ b))).take 20 := by
    simp only [get_listening_ports]
    rw [List.map_map]
    rw [show (Prod.fst ∘ fun p : ℕ =>
      (p, proto_str ((((cs.foldl listening_ports_step []).lookup p).getD ⟨none, none⟩))))
        = id from rfl]
    exact List.map_id _
  have hlen : (get_listening_ports (some cs)).length =
      ((((cs.foldl listening_ports_step []).map Prod.fst).mergeSort
        (fun a b => decide (a ≤ b))).take 20).length := by
    have h := congrArg List.length hmapfst
    rwa [List.length_map] at h
  refine ⟨rfl, ?_, ?_, ?_, ?_, ?_⟩
  · rw [hlen]
    exact List.length_take_le 20 _
  · rw [hmapfst]
    exact hsortlt.sublist (List.take_sublist 20 _)
  · intro p hp
    rw [hmapfst] at hp
    have hp2 : p ∈ ((cs.foldl listening_ports_step []).map Prod.fst) :=
      List.mem_mergeSort.mp ((List.take_sublist 20 _).subset hp)
    have := (listening_ports_fold_mem cs [] p).mp hp2
    simpa using this
  · intro p q hp hq hlt
    rw [hmapfst] at hp ⊢
    have hqk : q ∈ ((cs.foldl listening_ports_step []).map Prod.fst) :=
      (listening_ports_fold_mem cs [] q).mpr (Or.inr hq)
    have hqs : q ∈ (((cs.foldl listening_ports_step []).map Prod.fst).mergeSort
        (fun a b => decide (a ≤ b))) := List.mem_mergeSort.mpr hqk
    rw [← List.take_append_drop 20 (((cs.foldl listening_ports_step []).map
      Prod.fst).mergeSort (fun a b => decide (a ≤ b)))] at hqs hsortle
    rcases List.mem_append.mp hqs with h | h
    · exact h
    · exfalso
      obtain ⟨-, -, hcross⟩ := List.pairwise_append.mp hsortle
      exact absurd (hcross p hp q h) (by omega)
  · intro q hq
    have hqk : q ∈ ((cs.foldl listening_ports_step []).map Prod.fst) :=
      (listening_ports_fold_mem cs [] q).mpr (Or.inr hq)
    have hqs : q ∈ (((cs.foldl listening_ports_step []).map Prod.fst).mergeSort
        (fun a b => decide (a ≤ b))) := List.mem_mergeSort.mpr hqk
    by_cases hin : q ∈ (get_listening_ports (some cs)).map Prod.fst
    · exact Or.inl hin
    · right
      rw [hmapfst] at hin
      have hqdrop : q ∈ (((cs.foldl listening_ports_step []).map Prod.fst).mergeSort
          (fun a b => decide (a ≤ b))).drop 20 := by
        rcases List.mem_append.mp (by
          rwa [List.take_append_drop 20 (((cs.foldl listening_ports_step []).map
            Prod.fst).mergeSort (fun a b => decide (a ≤ b)))] : q ∈
          (((cs.foldl listening_ports_step []).map Prod.fst).mergeSort
            (fun a b => decide (a ≤ b))).take 20 ++
          (((cs.foldl listening_ports_step []).map Prod.fst).mergeSort
            (fun a b => decide (a ≤ b))).drop 20) with h | h
        · exact absurd h hin
        · exact h
      have hne : (((cs.foldl listening_ports_step []).map Prod.fst).mergeSort
          (fun a b => decide (a ≤ b))).drop 20 ≠ [] := by
        intro hnil
        rw [hnil] at hqdrop
        cases hqdrop
      have hlong : 20 < (((cs.foldl listening_ports_step []).map Prod.fst).mergeSort
          (fun a b => decide (a ≤ b))).length := by
        by_contra hle
        exact hne (List.drop_eq_nil_of_le (by omega))
      rw [hlen, List.length_take]
      omega

/-- Witness for C10: one listening TCP connection on port 80 plus an
established connection yield the single entry for port 80; a total
enumeration failure yields `[]`. -/
theorem listening_ports_shape_witness :
    get_listening_ports none = []
    ∧ (get_listening_ports
        (some [⟨"LISTEN", some 80, 1, "nginx"⟩, ⟨"ESTABLISHED", some 5000, 1, "curl"⟩])).length
        ≤ 20
    ∧ (∃ c ∈ [(⟨"LISTEN", some 80, 1, "nginx"⟩ : NetConn),
        ⟨"ESTABLISHED", some 5000, 1, "curl"⟩],
        c.status = "LISTEN" ∧ c.laddr_port = some 80) := by
  have h := listening_ports_shape
    [⟨"LISTEN", some 80, 1, "nginx"⟩, ⟨"ESTABLISHED", some 5000, 1, "curl"⟩]
  refine ⟨h.1, h.2.1, ?_⟩
  apply h.2.2.2.1 80
  simp [get_listening_ports, listening_ports_step, portMapSet, List.mergeSort, proto_str]

end WebMonitor
